import Mathlib

/-!
# Verification of the composepack chart rendering and release pipeline

This file embeds the data model and operations of the composepack
repository (Go) as Lean definitions and proves the specification claims
about them.  Go strings are modelled as `List Char`; Go maps
(`map[string]any`) are modelled as association lists whose keys are
distinct, with in-place replacement on update — structural equality of
the model then coincides with Go map equality for the operations used
here.  External collaborators (the YAML parser, subprocesses, the
filesystem, the HTTP client) are passed in as explicit parameters, as
the spec treats them as opaque.
-/

/-- Go strings are modelled as lists of characters. -/
abbrev GoStr := List Char

/-- Convert a Lean string literal to the model representation. -/
def gs (s : String) : GoStr := s.data

/-- Configuration tree values: the dynamic `any` values stored in
`map[string]any` after YAML decoding (scalars, mappings, lists).
Mirrors §3 "Configuration Tree" of the spec and Go's decoded YAML. -/
inductive Val where
  | vnull : Val
  | vbool : Bool → Val
  | vint : Int → Val
  | vstr : GoStr → Val
  | varr : List Val → Val
  | vobj : List (GoStr × Val) → Val
deriving Repr

/-- A Go `map[string]any` value: association list of keys to values. -/
abbrev Obj := List (GoStr × Val)

/-- Lookup in a Go map (`dst[key]`, comma-ok form). -/
def objLookup : Obj → GoStr → Option Val
  | [], _ => none
  | (k', v) :: tl, k => if k' = k then some v else objLookup tl k

/-- Go map assignment `dst[key] = v`: replaces the binding in place, or
appends a new binding. -/
def objSet : Obj → GoStr → Val → Obj
  | [], k, v => [(k, v)]
  | (k', v') :: tl, k, v =>
    if k' = k then (k', v) :: tl else (k', v') :: objSet tl k v

mutual

/-- Modelled from the spec: `values.Merge` of package
`internal/core/values` (that package's source is not in the repository
snapshot; only its callers are).  Spec §3: "merging is deterministic and
right-biased — a later layer's scalar or list value always fully
replaces the earlier layer's value at that key path; a later layer's
mapping is merged key-by-key into the earlier layer's mapping (recursive
deep merge)".  §4.2 step 3: a mapping overlaying a non-mapping replaces
it. -/
def mergeVal : Val → Val → Val
  | .vobj a, .vobj b => .vobj (mergeObj a b)
  | _, b => b
termination_by a b => (sizeOf b, 0, 0)

/-- Modelled from the spec: key-by-key merge of the overlay mapping into
the base mapping (helper of `mergeVal`). -/
def mergeObj : Obj → Obj → Obj
  | acc, [] => acc
  | acc, (k, v) :: rest => mergeObj (mergeSetKey acc k v) rest
termination_by acc l => (sizeOf l, 1, 0)

/-- Modelled from the spec: merge a single overlay binding into a base
mapping (recursive deep merge at an existing key, append otherwise). -/
def mergeSetKey : Obj → GoStr → Val → Obj
  | [], k, v => [(k, v)]
  | (k', v') :: tl, k, v =>
    if k' = k then (k', mergeVal v' v) :: tl else (k', v') :: mergeSetKey tl k v
termination_by l k v => (sizeOf v, 1, sizeOf l)

end

mutual

/-- `deepCopyValue` from `internal/app/app.go`: recursive copy of a
dynamic value (maps and slices copied, scalars returned as is). -/
def deepCopyValue : Val → Val
  | .vobj m => .vobj (deepCopyObj m)
  | .varr l => .varr (deepCopyArr l)
  | v => v
termination_by v => sizeOf v

/-- `deepCopyMap` from `internal/app/app.go` (non-nil case). -/
def deepCopyObj : Obj → Obj
  | [] => []
  | (k, v) :: tl => (k, deepCopyValue v) :: deepCopyObj tl
termination_by m => sizeOf m

/-- Element-wise copy of a Go slice (`[]any` case of `deepCopyValue`). -/
def deepCopyArr : List Val → List Val
  | [] => []
  | v :: tl => deepCopyValue v :: deepCopyArr tl
termination_by l => sizeOf l

end

/-- `strings.Split(s, sep)` for a single-character separator, as used by
`assignSetValue` (`strings.Split(key, ".")`). -/
def splitOnChar (sep : Char) : GoStr → List GoStr
  | [] => [[]]
  | c :: rest =>
    let r := splitOnChar sep rest
    if c = sep then [] :: r
    else
      match r with
      | [] => [[c]]
      | h :: t => (c :: h) :: t

/-- `assignSetValue` from `internal/app/app.go`: walks the dotted path
into nested maps, creating (or replacing by) fresh maps for missing or
non-map intermediate values, and assigns the literal string at the
leaf. -/
def assignSetValue : Obj → List GoStr → GoStr → Obj
  | dst, [], _ => dst
  | dst, [k], value => objSet dst k (.vstr value)
  | dst, k :: r :: rest, value =>
    let next : Obj :=
      match objLookup dst k with
      | some (.vobj m) => m
      | _ => []
    objSet dst k (.vobj (assignSetValue next (r :: rest) value))

/-- `buildSetOverrides` from `internal/app/app.go`: folds every inline
`key=value` override into one map via `assignSetValue`.  Go iterates the
overrides map in unspecified order; the model takes the overrides as an
ordered list. -/
def buildSetOverrides (inp : List (GoStr × GoStr)) : Obj :=
  inp.foldl (fun out kv => assignSetValue out (splitOnChar '.' kv.1) kv.2) []

/-- The spec's description of a converted override (§4.2 step 3): the
dotted key path split on `.` becomes a nested single-key mapping with
the literal string value at the leaf.  Written from the spec's words,
for comparison with `assignSetValue`. -/
def nestedOverride : List GoStr → GoStr → Val
  | [], v => .vstr v
  | k :: rest, v => .vobj [(k, nestedOverride rest v)]

/-- The nested single-key mapping of a split override path, as a
mapping (empty path yields the empty mapping).  Written from the spec's
words. -/
def nestedOverrideObj : List GoStr → GoStr → Obj
  | [], _ => []
  | k :: rest, v => [(k, nestedOverride rest v)]

/-! ## Inline-override lemmas (claim C4 infrastructure) -/

theorem objSet_eq_mergeSetKey_vstr (dst : Obj) (k : GoStr) (v : GoStr) :
    objSet dst k (.vstr v) = mergeSetKey dst k (.vstr v) := by
  induction dst with
  | nil => simp [objSet, mergeSetKey]
  | cons hd tl ih =>
    obtain ⟨k', v'⟩ := hd
    by_cases h : k' = k
    · subst h
      cases v' <;> simp [objSet, mergeSetKey, mergeVal]
    · simp [objSet, mergeSetKey, h, ih]

theorem assignSetValue_nil (k : GoStr) (path : List GoStr) (v : GoStr) :
    assignSetValue [] (k :: path) v = [(k, nestedOverride path v)] := by
  induction path generalizing k with
  | nil => simp [assignSetValue, objSet, nestedOverride]
  | cons r rest ih =>
    simp [assignSetValue, objLookup, objSet, nestedOverride, ih]

theorem assignSetValue_eq_mergeSetKey (dst : Obj) (k : GoStr) (path : List GoStr)
    (v : GoStr) :
    assignSetValue dst (k :: path) v = mergeSetKey dst k (nestedOverride path v) := by
  cases path with
  | nil => exact objSet_eq_mergeSetKey_vstr dst k v
  | cons r rest =>
    cases dst with
    | nil =>
      simp [assignSetValue, objLookup, objSet, mergeSetKey, nestedOverride,
        assignSetValue_nil]
    | cons hd tl =>
      obtain ⟨k', v'⟩ := hd
      by_cases h : k' = k
      · subst h
        cases v' with
        | vobj m =>
          have ih := assignSetValue_eq_mergeSetKey m r rest v
          simp [assignSetValue, objLookup, objSet, mergeSetKey, nestedOverride,
            mergeVal, mergeObj, ih]
        | vnull =>
          simp [assignSetValue, objLookup, objSet, mergeSetKey, nestedOverride,
            mergeVal, assignSetValue_nil]
        | vbool b =>
          simp [assignSetValue, objLookup, objSet, mergeSetKey, nestedOverride,
            mergeVal, assignSetValue_nil]
        | vint n =>
          simp [assignSetValue, objLookup, objSet, mergeSetKey, nestedOverride,
            mergeVal, assignSetValue_nil]
        | vstr s =>
          simp [assignSetValue, objLookup, objSet, mergeSetKey, nestedOverride,
            mergeVal, assignSetValue_nil]
        | varr l =>
          simp [assignSetValue, objLookup, objSet, mergeSetKey, nestedOverride,
            mergeVal, assignSetValue_nil]
      · have hL : assignSetValue ((k', v') :: tl) (k :: r :: rest) v
            = (k', v') :: assignSetValue tl (k :: r :: rest) v := by
          simp only [assignSetValue, objLookup, objSet, if_neg h]
        have hR : mergeSetKey ((k', v') :: tl) k (nestedOverride (r :: rest) v)
            = (k', v') :: mergeSetKey tl k (nestedOverride (r :: rest) v) := by
          simp only [mergeSetKey, if_neg h]
        rw [hL, hR, assignSetValue_eq_mergeSetKey tl k (r :: rest) v]
termination_by sizeOf dst

theorem assignSetValue_eq_mergeObj (dst : Obj) (path : List GoStr) (v : GoStr) :
    assignSetValue dst path v = mergeObj dst (nestedOverrideObj path v) := by
  cases path with
  | nil => simp [assignSetValue, nestedOverrideObj, mergeObj]
  | cons k rest =>
    simp [nestedOverrideObj, mergeObj, assignSetValue_eq_mergeSetKey]

theorem objLookup_objSet (dst : Obj) (k : GoStr) (v : Val) :
    objLookup (objSet dst k v) k = some v := by
  induction dst with
  | nil => simp [objSet, objLookup]
  | cons hd tl ih =>
    obtain ⟨k', v'⟩ := hd
    by_cases h : k' = k
    · simp [objSet, objLookup, h]
    · simp [objSet, objLookup, h, ih]

theorem buildSetOverrides_single (k v : GoStr) :
    buildSetOverrides [(k, v)] = nestedOverrideObj (splitOnChar '.' k) v := by
  unfold buildSetOverrides
  simp only [List.foldl]
  cases h : splitOnChar '.' k with
  | nil => simp [assignSetValue, nestedOverrideObj]
  | cons k0 rest => simp [assignSetValue_nil, nestedOverrideObj]

theorem buildSetOverrides_eq_mergeLayers (ovs : List (GoStr × GoStr)) :
    buildSetOverrides ovs
      = ovs.foldl
          (fun acc kv => mergeObj acc (nestedOverrideObj (splitOnChar '.' kv.1) kv.2))
          [] := by
  unfold buildSetOverrides
  congr 1
  funext acc kv
  exact assignSetValue_eq_mergeObj acc _ kv.2

theorem assignSetValue_collision (dst : Obj) (k r : GoStr) (rest : List GoStr)
    (v : GoStr) (h : ∀ m, objLookup dst k ≠ some (.vobj m)) :
    objLookup (assignSetValue dst (k :: r :: rest) v) k
      = some (nestedOverride (r :: rest) v) := by
  have hnext : assignSetValue dst (k :: r :: rest) v
      = objSet dst k (.vobj (assignSetValue [] (r :: rest) v)) := by
    cases hv : objLookup dst k with
    | none => simp [assignSetValue, hv]
    | some w =>
      cases w with
      | vobj m => exact absurd hv (h m)
      | vnull => simp [assignSetValue, hv]
      | vbool b => simp [assignSetValue, hv]
      | vint n => simp [assignSetValue, hv]
      | vstr s => simp [assignSetValue, hv]
      | varr l => simp [assignSetValue, hv]
  rw [hnext, objLookup_objSet, assignSetValue_nil]
  simp [nestedOverride]

/-! ## Go string ordering (`sort.Strings`) -/

/-- Go's `<` on strings: lexicographic comparison. -/
def strLtB : GoStr → GoStr → Bool
  | [], [] => false
  | [], _ :: _ => true
  | _ :: _, [] => false
  | a :: as, b :: bs =>
    if a < b then true
    else if b < a then false
    else strLtB as bs

theorem strLtB_irrefl (a : GoStr) : strLtB a a = false := by
  induction a with
  | nil => rfl
  | cons c tl ih => simp [strLtB, ih]

theorem strLtB_trans : ∀ {a b c : GoStr},
    strLtB a b = true → strLtB b c = true → strLtB a c = true
  | [], [], _, h, _ => by simp [strLtB] at h
  | [], _ :: _, [], _, h => by simp [strLtB] at h
  | [], _ :: _, _ :: _, _, _ => by simp [strLtB]
  | _ :: _, [], _, h, _ => by simp [strLtB] at h
  | _ :: _, _ :: _, [], _, h => by simp [strLtB] at h
  | x :: xs, y :: ys, z :: zs, h1, h2 => by
    simp only [strLtB] at h1 h2 ⊢
    rcases lt_trichotomy x y with hxy | hxy | hxy
    · rcases lt_trichotomy y z with hyz | hyz | hyz
      · simp [lt_trans hxy hyz]
      · subst hyz
        simp [hxy]
      · simp [not_lt_of_lt hyz, hyz] at h2
    · subst hxy
      rcases lt_trichotomy x z with hxz | hxz | hxz
      · simp [hxz]
      · subst hxz
        simp only [lt_irrefl, if_false] at h1 h2 ⊢
        exact strLtB_trans h1 h2
      · simp [not_lt_of_lt hxz, hxz] at h2
    · simp [not_lt_of_lt hxy, hxy] at h1

theorem strLtB_trichotomy (a b : GoStr) :
    strLtB a b = true ∨ strLtB b a = true ∨ a = b := by
  induction a generalizing b with
  | nil =>
    cases b with
    | nil => simp [strLtB]
    | cons y ys => simp [strLtB]
  | cons x xs ih =>
    cases b with
    | nil => simp [strLtB]
    | cons y ys =>
      rcases lt_trichotomy x y with hxy | hxy | hxy
      · simp [strLtB, hxy]
      · subst hxy
        rcases ih ys with h | h | h
        · simp [strLtB, h]
        · simp [strLtB, h]
        · subst h
          simp
      · simp [strLtB, hxy, not_lt_of_lt hxy]

/-- The ordering used to model `sort.Strings`: `a` comes no later than
`b` when Go's `b < a` is false. -/
def goStrLe (a b : GoStr) : Prop := strLtB b a = false

instance : DecidableRel goStrLe := fun a b => by
  unfold goStrLe
  infer_instance

instance : IsTotal GoStr goStrLe where
  total a b := by
    unfold goStrLe
    by_cases h1 : strLtB b a = true
    · by_cases h2 : strLtB a b = true
      · exact absurd (strLtB_trans h1 h2) (by simp [strLtB_irrefl b])
      · right
        simpa using h2
    · left
      simpa using h1

instance : IsTrans GoStr goStrLe where
  trans a b c hab hbc := by
    unfold goStrLe at hab hbc ⊢
    by_cases hca : strLtB c a = true
    · rcases strLtB_trichotomy b c with h | h | h
      · exact absurd (strLtB_trans h hca) (by simp [hab])
      · simp [h] at hbc
      · subst h
        simp [hca] at hab
    · simpa using hca

/-- `sort.Strings` from the Go standard library: sorts the slice
ascending by Go string `<`.  (`sort.Strings` is not stable, but the
fragment names sorted here are distinct map keys, so the sorted result
is unique; insertion sort realizes it.) -/
def sortStrings (l : List GoStr) : List GoStr := List.insertionSort goStrLe l

theorem sortStrings_sorted (l : List GoStr) :
    List.Pairwise goStrLe (sortStrings l) :=
  List.sorted_insertionSort goStrLe l

theorem sortStrings_perm (l : List GoStr) : (sortStrings l).Perm l :=
  List.perm_insertionSort goStrLe l

theorem strLtB_append_left : ∀ (p : GoStr) (a b : GoStr),
    strLtB (p ++ a) (p ++ b) = strLtB a b
  | [], _, _ => rfl
  | c :: p, a, b => by
    simp [strLtB, strLtB_append_left p a b]

theorem goStrLe_append_left (p : GoStr) {a b : GoStr} (h : goStrLe a b) :
    goStrLe (p ++ a) (p ++ b) := by
  unfold goStrLe at h ⊢
  rw [strLtB_append_left]
  exact h

/-! ## SHA-256 (the `crypto/sha256` hash used by `Metadata.Digest`) -/

/-- Truncate to a 32-bit word. -/
def w32 (n : Nat) : Nat := n % 4294967296

/-- 32-bit rotate right. -/
def rotr32 (x n : Nat) : Nat := w32 ((x >>> n) ||| (x <<< (32 - n)))

def shaCh (e f g : Nat) : Nat := (e &&& f) ^^^ ((4294967295 ^^^ e) &&& g)

def shaMaj (a b c : Nat) : Nat := (a &&& b) ^^^ (a &&& c) ^^^ (b &&& c)

def bigSigma0 (a : Nat) : Nat := rotr32 a 2 ^^^ rotr32 a 13 ^^^ rotr32 a 22

def bigSigma1 (e : Nat) : Nat := rotr32 e 6 ^^^ rotr32 e 11 ^^^ rotr32 e 25

def smallSigma0 (x : Nat) : Nat := rotr32 x 7 ^^^ rotr32 x 18 ^^^ (x >>> 3)

def smallSigma1 (x : Nat) : Nat := rotr32 x 17 ^^^ rotr32 x 19 ^^^ (x >>> 10)

/-- The SHA-256 round constants. -/
def shaK : List Nat :=
  [1116352408, 1899447441, 3049323471, 3921009573, 961987163, 1508970993,
   2453635748, 2870763221, 3624381080, 310598401, 607225278, 1426881987,
   1925078388, 2162078206, 2614888103, 3248222580, 3835390401, 4022224774,
   264347078, 604807628, 770255983, 1249150122, 1555081692, 1996064986,
   2554220882, 2821834349, 2952996808, 3210313671, 3336571891, 3584528711,
   113926993, 338241895, 666307205, 773529912, 1294757372, 1396182291,
   1695183700, 1986661051, 2177026350, 2456956037, 2730485921, 2820302411,
   3259730800, 3345764771, 3516065817, 3600352804, 4094571909, 275423344,
   430227734, 506948616, 659060556, 883997877, 958139571, 1322822218,
   1537002063, 1747873779, 1955562222, 2024104815, 2227730452, 2361852424,
   2428436474, 2756734187, 3204031479, 3329325298]

/-- The SHA-256 initial hash state. -/
def shaH0 : List Nat :=
  [1779033703, 3144134277, 1013904242, 2773480762,
   1359893119, 2600822924, 528734635, 1541459225]

/-- Big-endian bytes of a 32-bit word. -/
def be32 (n : Nat) : List Nat :=
  [n / 16777216 % 256, n / 65536 % 256, n / 256 % 256, n % 256]

/-- Big-endian bytes of a 64-bit length field. -/
def be64 (n : Nat) : List Nat :=
  [n / 72057594037927936 % 256, n / 281474976710656 % 256,
   n / 1099511627776 % 256, n / 4294967296 % 256,
   n / 16777216 % 256, n / 65536 % 256, n / 256 % 256, n % 256]

/-- SHA-256 message padding: `0x80`, zeros to 56 mod 64, then the
bit length as a big-endian 64-bit number. -/
def sha256Pad (msg : List Nat) : List Nat :=
  msg ++ 128 :: (List.replicate ((119 - msg.length % 64) % 64) 0 ++ be64 (8 * msg.length))

/-- Combine bytes into big-endian 32-bit words. -/
def bytesToWords : List Nat → List Nat
  | a :: b :: c :: d :: rest => (((a * 256 + b) * 256 + c) * 256 + d) :: bytesToWords rest
  | _ => []

/-- Extend the 16 block words to the 64-word message schedule.  The
accumulator list is kept reversed (most recent word first). -/
def extendWords : Nat → List Nat → List Nat
  | 0, rw => rw
  | n + 1, rw =>
    let nw := w32 (smallSigma1 (rw.getD 1 0) + rw.getD 6 0
      + smallSigma0 (rw.getD 14 0) + rw.getD 15 0)
    extendWords n (nw :: rw)

def schedule (block : List Nat) : List Nat :=
  (extendWords 48 (bytesToWords block).reverse).reverse

/-- One SHA-256 compression round on the 8-word working state. -/
def compressRound (s : List Nat) (kw : Nat × Nat) : List Nat :=
  match s with
  | [a, b, c, d, e, f, g, h] =>
    let t1 := w32 (h + bigSigma1 e + shaCh e f g + kw.1 + kw.2)
    let t2 := w32 (bigSigma0 a + shaMaj a b c)
    [w32 (t1 + t2), a, b, c, w32 (d + t1), e, f, g]
  | other => other

/-- Compress one 64-byte block into the hash state. -/
def processBlock (h : List Nat) (block : List Nat) : List Nat :=
  let s := (shaK.zip (schedule block)).foldl compressRound h
  List.zipWith (fun x y => w32 (x + y)) h s

/-- Split into 64-byte blocks (the fuel always suffices: each step
consumes at least one byte of fuel-measured input). -/
def chunks64 : Nat → List Nat → List (List Nat)
  | 0, _ => []
  | _ + 1, [] => []
  | fuel + 1, l => l.take 64 :: chunks64 fuel (l.drop 64)

/-- SHA-256 of a byte sequence. -/
def sha256 (msg : List Nat) : List Nat :=
  let padded := sha256Pad msg
  ((chunks64 padded.length padded).foldl processBlock shaH0).map be32 |>.flatten

/-- `encoding/hex.EncodeToString`: lowercase hex of a byte sequence. -/
def hexDigit (n : Nat) : Char := (gs "0123456789abcdef").getD n '0'

def hexEncode (bytes : List Nat) : GoStr :=
  bytes.foldr (fun b acc => hexDigit (b / 16) :: hexDigit (b % 16) :: acc) []

/-- UTF-8 encoding of one character (Go strings hold UTF-8 bytes). -/
def utf8Char (c : Char) : List Nat :=
  let n := c.toNat
  if n < 128 then [n]
  else if n < 2048 then [192 + n / 64, 128 + n % 64]
  else if n < 65536 then [224 + n / 4096, 128 + n / 64 % 64, 128 + n % 64]
  else [240 + n / 262144, 128 + n / 4096 % 64, 128 + n / 64 % 64, 128 + n % 64]

/-- The UTF-8 bytes of a Go string. -/
def utf8Bytes (s : GoStr) : List Nat := (s.map utf8Char).flatten


/-! ## Release metadata (`internal/core/release/metadata.go`) -/

/-- A Go `time.Time` as the metadata store observes it: its RFC3339 UTC
rendering (the only thing hashed or serialized) and whether it is the
zero time (`IsZero`). -/
structure GoTime where
  rfc3339 : GoStr
  isZero : Bool
deriving Repr, DecidableEq

/-- `chart.ChartMetadata` from `internal/core/chart/chart.go`. -/
structure ChartMetadata where
  name : GoStr
  version : GoStr
  description : GoStr
  maintainers : List GoStr
deriving Repr, DecidableEq

/-- `release.Metadata` from `internal/core/release/metadata.go` —
the `release.json` contents.  `values` is `none` when the Go map is
nil (`omitempty` drops it from the serialized body). -/
structure Metadata where
  releaseName : GoStr
  chartMetadata : ChartMetadata
  chartSource : GoStr
  chartDigest : GoStr
  runtimePath : GoStr
  createdAt : GoTime
  values : Option Obj
  valuesSources : List GoStr
  composeFiles : List GoStr
deriving Repr

/-- The five fields `Metadata.Digest` hashes, in order
(`fieldsToBeHashed` in the source). -/
def fieldsToBeHashed (m : Metadata) : List GoStr :=
  [m.releaseName, m.chartMetadata.name, m.chartMetadata.version,
   m.chartMetadata.description, m.createdAt.rfc3339]

/-- The digest value `Metadata.Digest` computes: SHA-256 over each field
followed by a zero byte, hex encoded. -/
def Metadata.digestString (m : Metadata) : GoStr :=
  hexEncode (sha256 ((fieldsToBeHashed m).foldr
    (fun f acc => utf8Bytes f ++ 0 :: acc) []))

/-- `Metadata.Digest` from the source: stores the computed digest into
the `ChartDigest` field (the Go method mutates the receiver). -/
def Metadata.Digest (m : Metadata) : Metadata :=
  { m with chartDigest := m.digestString }

/-- Outcome of `os.ReadFile` as `Store.Load` distinguishes it:
not-exist, any other error, or the file contents. -/
inductive ReadResult where
  | notExist
  | ioError (msg : GoStr)
  | content (data : GoStr)
deriving Repr, DecidableEq

/-- `Store.Load` from the source.  `parse` stands for `json.Unmarshal`
into a `Metadata` value (`none` models a parse error), `ctxErr` for
`ctx.Err()`, and `file` for the result of reading
`<runtime>/release.json`. -/
def Store.load (parse : GoStr → Option Metadata) (ctxErr : Option GoStr)
    (runtimePath : GoStr) (file : ReadResult) : Except GoStr (Option Metadata) :=
  if runtimePath = [] then .error (gs "runtime path is required")
  else
    match ctxErr with
    | some e => .error e
    | none =>
      match file with
      | .notExist => .ok none
      | .ioError e => .error (gs "read release metadata: " ++ e)
      | .content data =>
        match parse data with
        | none => .error (gs "parse release metadata")
        | some m => .ok (some m)

/-- What a call to `Store.Save` produced: the outcome, the caller's
in-memory record after the call (the Go method mutates `*meta`; the
deferred restore always puts the original `Values` back), the record
serialized to the temp file (if the write step ran), and whether the
atomic rename over `release.json` happened. -/
structure SaveResult where
  outcome : Except GoStr Unit
  finalMeta : Metadata
  written : Option Metadata
  renamed : Bool
deriving Repr

/-- The stamping steps of `Store.Save`: set the runtime path, set the
creation time only if previously unset, recompute the digest. -/
def stampMeta (runtimePath : GoStr) (now : GoTime) (meta : Metadata) : Metadata :=
  Metadata.Digest
    (if meta.createdAt.isZero then
      { meta with runtimePath := runtimePath, createdAt := now }
    else
      { meta with runtimePath := runtimePath })

/-- `Store.Save` from the source.  The filesystem steps (`MkdirAll`,
`WriteFile`, `Rename`) are modelled by success booleans; `now` models
`time.Now().UTC()` (never the zero time).  The Go nil-`meta` guard has
no counterpart because the model passes metadata by value.
`json.MarshalIndent` cannot fail on this record type. -/
def Store.save (ctxErr : Option GoStr) (now : GoTime)
    (mkdirOk writeOk renameOk : Bool) (runtimePath : GoStr)
    (meta : Metadata) : SaveResult :=
  if runtimePath = [] then
    ⟨.error (gs "runtime path is required"), meta, none, false⟩
  else
    match ctxErr with
    | some e => ⟨.error e, meta, none, false⟩
    | none =>
      let stamped := stampMeta runtimePath now meta
      if !mkdirOk then
        ⟨.error (gs "ensure runtime directory"), stamped, none, false⟩
      else
        let serialized := { stamped with values := none }
        if !writeOk then
          ⟨.error (gs "write temp metadata"), stamped, none, false⟩
        else if !renameOk then
          ⟨.error (gs "rename metadata file"), stamped, some serialized, false⟩
        else
          ⟨.ok (), stamped, some serialized, true⟩

theorem save_written_eq (ctxErr : Option GoStr) (now : GoTime)
    (mkdirOk writeOk renameOk : Bool) (runtimePath : GoStr) (meta : Metadata)
    (w : Metadata)
    (hw : (Store.save ctxErr now mkdirOk writeOk renameOk runtimePath meta).written
      = some w) :
    w = { stampMeta runtimePath now meta with values := none } := by
  unfold Store.save at hw
  split at hw
  · simp at hw
  · cases ctxErr with
    | some e => simp at hw
    | none =>
      simp only [] at hw
      by_cases hm : mkdirOk
      · by_cases hwk : writeOk
        · by_cases hrn : renameOk
          · simp [hm, hwk, hrn] at hw
            exact hw.symm
          · simp [hm, hwk, hrn] at hw
            exact hw.symm
        · simp [hm, hwk] at hw
      · simp [hm] at hw

theorem save_finalMeta_eq (ctxErr : Option GoStr) (now : GoTime)
    (mkdirOk writeOk renameOk : Bool) (runtimePath : GoStr) (meta : Metadata) :
    (Store.save ctxErr now mkdirOk writeOk renameOk runtimePath meta).finalMeta
        = meta
    ∨ (Store.save ctxErr now mkdirOk writeOk renameOk runtimePath meta).finalMeta
        = stampMeta runtimePath now meta := by
  unfold Store.save
  split
  · left
    rfl
  · cases ctxErr with
    | some e => left; rfl
    | none =>
      by_cases hm : mkdirOk
      · by_cases hwk : writeOk
        · by_cases hrn : renameOk
          · right
            simp [hm, hwk, hrn]
          · right
            simp [hm, hwk, hrn]
        · right
          simp [hm, hwk]
      · right
        simp [hm]

theorem stampMeta_values (runtimePath : GoStr) (now : GoTime) (meta : Metadata) :
    (stampMeta runtimePath now meta).values = meta.values := by
  unfold stampMeta Metadata.Digest
  split <;> rfl

/-- C1: The release digest is a deterministic function of exactly the
five fields (release name, chart name, chart version, chart description,
creation timestamp): two `Metadata` records agreeing on these five
fields get equal `ChartDigest` strings from `Digest`, regardless of any
other field; and every call to `Save` recomputes the digest before
serializing — the record it serializes carries exactly the digest of its
own five fields. -/
theorem C1_digest_of_five_fields :
    (∀ m1 m2 : Metadata,
      m1.releaseName = m2.releaseName →
      m1.chartMetadata.name = m2.chartMetadata.name →
      m1.chartMetadata.version = m2.chartMetadata.version →
      m1.chartMetadata.description = m2.chartMetadata.description →
      m1.createdAt = m2.createdAt →
      m1.Digest.chartDigest = m2.Digest.chartDigest)
    ∧ (∀ (ctxErr : Option GoStr) (now : GoTime) (mkdirOk writeOk renameOk : Bool)
        (runtimePath : GoStr) (meta w : Metadata),
      (Store.save ctxErr now mkdirOk writeOk renameOk runtimePath meta).written
          = some w →
      w.chartDigest = w.digestString) := by
  constructor
  · intro m1 m2 h1 h2 h3 h4 h5
    simp [Metadata.Digest, Metadata.digestString, fieldsToBeHashed,
      h1, h2, h3, h4, h5]
  · intro ctxErr now mkdirOk writeOk renameOk runtimePath meta w hw
    have h := save_written_eq ctxErr now mkdirOk writeOk renameOk runtimePath meta w hw
    subst h
    unfold stampMeta Metadata.Digest Metadata.digestString fieldsToBeHashed
    split <;> rfl

/-- A sample metadata record for witnesses. -/
def mWitnessA : Metadata :=
  { releaseName := gs "prod"
    chartMetadata :=
      { name := gs "app", version := gs "1.0.0", description := gs "demo app"
        maintainers := [] }
    chartSource := gs "charts/app"
    chartDigest := []
    runtimePath := gs "/releases/prod"
    createdAt := { rfc3339 := gs "2024-01-02T03:04:05Z", isZero := false }
    values := some [(gs "a", .vstr (gs "x"))]
    valuesSources := [gs "chart:values.yaml"]
    composeFiles := [gs "web.yaml"] }

/-- A record agreeing with `mWitnessA` on the five digest fields but
differing on values, chart source, runtime path, provenance and
fragment list. -/
def mWitnessB : Metadata :=
  { mWitnessA with
    chartSource := gs "http://example.com/app.cpack.tgz"
    runtimePath := gs "/elsewhere"
    values := none
    valuesSources := []
    composeFiles := [] }

def tNow : GoTime := { rfc3339 := gs "2025-06-07T08:09:10Z", isZero := false }

theorem C1_digest_of_five_fields_witness :
    mWitnessA.Digest.chartDigest = mWitnessB.Digest.chartDigest
    ∧ ∀ w : Metadata,
      (Store.save none tNow true true true (gs "/rt") mWitnessA).written = some w →
      w.chartDigest = w.digestString :=
  ⟨C1_digest_of_five_fields.1 mWitnessA mWitnessB rfl rfl rfl rfl rfl,
   fun w hw =>
     C1_digest_of_five_fields.2 none tNow true true true (gs "/rt") mWitnessA w hw⟩

/-- C2: For every runtime path whose metadata file does not exist,
`Store.Load` returns an absent result (`none`) with no error; it errors
exactly when the path is empty, the read fails for a reason other than
non-existence, or the existing file cannot be parsed. -/
theorem C2_load_missing_is_absent :
    (∀ (parse : GoStr → Option Metadata) (runtimePath : GoStr),
      runtimePath ≠ [] →
      Store.load parse none runtimePath .notExist = .ok none)
    ∧ (∀ (parse : GoStr → Option Metadata) (runtimePath : GoStr) (file : ReadResult),
      (∃ e, Store.load parse none runtimePath file = .error e) ↔
        (runtimePath = []
          ∨ (∃ e, file = .ioError e)
          ∨ (∃ d, file = .content d ∧ parse d = none))) := by
  constructor
  · intro parse runtimePath h
    simp [Store.load, h]
  · intro parse runtimePath file
    by_cases h : runtimePath = []
    · simp [Store.load, h]
    · cases file with
      | notExist => simp [Store.load, h]
      | ioError e => simp [Store.load, h]
      | content d =>
        cases hp : parse d with
        | none => simp [Store.load, h, hp]
        | some m => simp [Store.load, h, hp]

theorem C2_load_missing_is_absent_witness :
    Store.load (fun _ => none) none (gs "/releases/prod") .notExist = .ok none :=
  C2_load_missing_is_absent.1 (fun _ => none) (gs "/releases/prod") (by decide)

/-- C3: `Save` blanks the values field in the serialized metadata body,
and the caller's in-memory values field is unchanged by the call on
every path, success or failure. -/
theorem C3_save_blanks_and_restores_values :
    (∀ (ctxErr : Option GoStr) (now : GoTime) (mkdirOk writeOk renameOk : Bool)
        (runtimePath : GoStr) (meta : Metadata),
      (Store.save ctxErr now mkdirOk writeOk renameOk runtimePath meta).finalMeta.values
        = meta.values)
    ∧ (∀ (ctxErr : Option GoStr) (now : GoTime) (mkdirOk writeOk renameOk : Bool)
        (runtimePath : GoStr) (meta w : Metadata),
      (Store.save ctxErr now mkdirOk writeOk renameOk runtimePath meta).written
          = some w →
      w.values = none) := by
  constructor
  · intro ctxErr now mkdirOk writeOk renameOk runtimePath meta
    rcases save_finalMeta_eq ctxErr now mkdirOk writeOk renameOk runtimePath meta
      with h | h
    · rw [h]
    · rw [h, stampMeta_values]
  · intro ctxErr now mkdirOk writeOk renameOk runtimePath meta w hw
    rw [save_written_eq ctxErr now mkdirOk writeOk renameOk runtimePath meta w hw]

theorem C3_save_blanks_and_restores_values_witness :
    (Store.save none tNow true true false (gs "/rt") mWitnessA).finalMeta.values
      = mWitnessA.values
    ∧ ({ stampMeta (gs "/rt") tNow mWitnessA with values := none } : Metadata).values
      = none :=
  ⟨C3_save_blanks_and_restores_values.1 none tNow true true false (gs "/rt") mWitnessA,
   C3_save_blanks_and_restores_values.2 none tNow true true false (gs "/rt")
     mWitnessA _ rfl⟩

/-! ## Compose runtime adapter (`internal/core/dockercompose`) -/

/-- `dockercompose.MergeOptions`. -/
structure MergeOptions where
  workingDir : GoStr
  fragmentPaths : List GoStr
  projectName : GoStr
deriving Repr, DecidableEq

/-- `Runner.MergeFragments`: refuses an empty fragment list, then builds
`-f <path> ... config` arguments and runs the external compose
subprocess (`run`, modelling `r.run` with its primary/fallback command
resolution; errors are wrapped by `composeError`). -/
def Runner.MergeFragments (run : MergeOptions → List GoStr → Except GoStr GoStr)
    (opts : MergeOptions) : Except GoStr GoStr :=
  if opts.fragmentPaths = [] then
    .error (gs "at least one compose fragment is required")
  else
    let args := (opts.fragmentPaths.map (fun p => [gs "-f", p])).flatten ++ [gs "config"]
    match run opts args with
    | .error e => .error (gs "docker compose config: " ++ e)
    | .ok out => .ok out

/-! ## Fragment merging (`Application.mergeFragments` in app.go) -/

/-- `filepath.Join(dir, name)` for the clean relative fragment names
used here (no `.`/`..` segments), where Join is plain concatenation
with a separator. -/
def joinPath (dir name : GoStr) : GoStr := dir ++ '/' :: name

/-- `strings.ReplaceAll`, fuelled by the string length (each step
consumes at least one character, so the fuel always suffices);
`mergeFragments` only calls it with a non-empty pattern. -/
def replaceAllFuel : Nat → GoStr → GoStr → GoStr → GoStr
  | 0, s, _, _ => s
  | _ + 1, [], _, _ => []
  | fuel + 1, c :: rest, pat, rep =>
    if !pat.isEmpty && pat.isPrefixOf (c :: rest) then
      rep ++ replaceAllFuel fuel ((c :: rest).drop pat.length) pat rep
    else
      c :: replaceAllFuel fuel rest pat rep

def replaceAll (s pat rep : GoStr) : GoStr := replaceAllFuel s.length s pat rep

/-- The fragment names in the order `mergeFragments` processes and
returns them: the map keys sorted by `sort.Strings`. -/
def fragmentNames (fragments : List (GoStr × GoStr)) : List GoStr :=
  sortStrings (fragments.map Prod.fst)

/-- The fragment paths handed to the compose runtime: the sorted names
joined under the scratch directory, in the same order. -/
def fragmentPathList (tempDir : GoStr) (fragments : List (GoStr × GoStr)) :
    List GoStr :=
  (fragmentNames fragments).map (joinPath tempDir)

/-- The `MergeOptions` value `mergeFragments` passes to
`Runner.MergeFragments`. -/
def mergeCallOptions (tempDir : GoStr) (fragments : List (GoStr × GoStr))
    (releaseName : GoStr) : MergeOptions :=
  { workingDir := tempDir
    fragmentPaths := fragmentPathList tempDir fragments
    projectName := releaseName }

/-- `Application.mergeFragments` from app.go: writes the fragments (at
their sorted relative paths) and file assets into a scratch directory,
invokes the compose runtime's merge over the fragment paths, and
substitutes the scratch path back to `.` in the output.  `mkTempOk`
models `os.MkdirTemp`; `fsWriteOk` models the `MkdirAll`/`WriteFile`
loop. -/
def mergeFragments (run : MergeOptions → List GoStr → Except GoStr GoStr)
    (mkTempOk : Bool) (tempDir : GoStr) (fsWriteOk : Bool)
    (fragments : List (GoStr × GoStr)) (files : List (GoStr × GoStr))
    (releaseName : GoStr) : Except GoStr (GoStr × List GoStr) :=
  if !mkTempOk then .error (gs "create temp directory")
  else if !fsWriteOk then .error (gs "write fragment")
  else
    match Runner.MergeFragments run (mergeCallOptions tempDir fragments releaseName) with
    | .error e => .error e
    | .ok data => .ok (replaceAll data tempDir (gs "."), fragmentNames fragments)

/-! ## Chart model and the render pipeline -/

/-- `chart.Chart` from `internal/core/chart/chart.go`.  Template and
file collections are association lists keyed by relative path. -/
structure Chart where
  metadata : ChartMetadata
  baseDir : GoStr
  values : Option Obj
  valuesSchema : Option GoStr
  composeTpls : List (GoStr × GoStr)
  fileTemplates : List (GoStr × GoStr)
  helperTpls : List (GoStr × GoStr)
  staticFiles : List (GoStr × GoStr)

/-- `app.RenderOptions`. -/
structure RenderOptions where
  releaseName : GoStr
  chartSource : GoStr
  valueFiles : List GoStr
  setValues : List (GoStr × GoStr)
  runtimeBaseDir : GoStr
  runtimePath : GoStr

/-- The values-file loop of `Application.buildValues`: load each file
(`loadValuesFile`, a collaborator reading and YAML-decoding the file)
and deep-merge it in, recording its path as a provenance entry. -/
def buildValuesFold (readValuesFile : GoStr → Except GoStr Obj) :
    List GoStr → Obj → List GoStr → Except GoStr (Obj × List GoStr)
  | [], result, sources => .ok (result, sources)
  | path :: rest, result, sources =>
    match readValuesFile path with
    | .error e => .error (gs "load values file: " ++ e)
    | .ok contents =>
      buildValuesFold readValuesFile rest (mergeObj result contents) (sources ++ [path])

/-- `Application.buildValues` from app.go: deep copy of the chart
defaults, then each values file in order, then the inline `--set` layer,
then schema validation.  `validate` models `values.Validate` (source not
in the snapshot). -/
def buildValues (readValuesFile : GoStr → Except GoStr Obj)
    (validate : Option GoStr → Obj → Except GoStr Unit)
    (ch : Chart) (opts : RenderOptions) : Except GoStr (Obj × List GoStr) :=
  let start : Obj :=
    match ch.values with
    | some v => deepCopyObj v
    | none => []
  match buildValuesFold readValuesFile opts.valueFiles start [gs "chart:values.yaml"] with
  | .error e => .error e
  | .ok (result0, sources0) =>
    let step :=
      if opts.setValues ≠ [] then
        let so := buildSetOverrides opts.setValues
        if so.isEmpty then (result0, sources0)
        else (mergeObj result0 so, sources0 ++ [gs "cli:set"])
      else (result0, sources0)
    match validate ch.valuesSchema step.1 with
    | .error e => .error (gs "validate values: " ++ e)
    | .ok _ => .ok step

/-- The collaborator outcomes `Application.renderRelease` consumes: the
chart loader result, the values-file reader, the validator, the template
engine results (the `templating` package is external to the snapshot),
the compose subprocess, the scratch directory, the runtime location
resolution, the runtime writer, and the metadata-save filesystem
steps. -/
structure RenderDeps where
  chart : Except GoStr Chart
  readValuesFile : GoStr → Except GoStr Obj
  validate : Option GoStr → Obj → Except GoStr Unit
  composeFragments : Except GoStr (List (GoStr × GoStr))
  fileAssets : Except GoStr (List (GoStr × GoStr))
  runCompose : MergeOptions → List GoStr → Except GoStr GoStr
  mkTempOk : Bool
  tempDir : GoStr
  fragWriteOk : Bool
  resolveLoc : Except GoStr (GoStr × GoStr)
  writeRuntime : Except GoStr GoStr
  now : GoTime
  mkdirOk : Bool
  writeOk : Bool
  renameOk : Bool

/-- The metadata record `renderRelease` constructs before saving
(digest, runtime path and creation time are Go zero values; `Save`
stamps them). -/
def renderMetadata (opts : RenderOptions) (ch : Chart) (mergedValues : Obj)
    (valueSources : List GoStr) (orderedFragments : List GoStr) : Metadata :=
  { releaseName := opts.releaseName
    chartMetadata := ch.metadata
    chartSource := opts.chartSource
    chartDigest := []
    runtimePath := []
    createdAt := { rfc3339 := [], isZero := true }
    values := some (deepCopyObj mergedValues)
    valuesSources := valueSources
    composeFiles := orderedFragments }

/-- The final step of `renderRelease`: persist the metadata via
`Store.Save` and return the runtime directory with the saved record. -/
def saveStep (deps : RenderDeps) (runtimeDir : GoStr) (meta : Metadata) :
    Except GoStr (GoStr × Metadata) :=
  match (Store.save none deps.now deps.mkdirOk deps.writeOk deps.renameOk
      runtimeDir meta).outcome with
  | .error e => .error (gs "save release metadata: " ++ e)
  | .ok _ =>
    .ok (runtimeDir,
      (Store.save none deps.now deps.mkdirOk deps.writeOk deps.renameOk
        runtimeDir meta).finalMeta)

/-- `Application.renderRelease` from app.go: validate options, load the
chart, build values, render compose fragments (erroring when none),
render file assets, merge fragments, resolve the runtime location, write
the runtime directory, and save release metadata recording the ordered
fragment list. -/
def renderRelease (deps : RenderDeps) (opts : RenderOptions) :
    Except GoStr (GoStr × Metadata) :=
  if opts.releaseName = [] then .error (gs "release name is required")
  else if opts.chartSource = [] then .error (gs "chart source must be provided")
  else
    match deps.chart with
    | .error e => .error (gs "load chart: " ++ e)
    | .ok ch =>
      match buildValues deps.readValuesFile deps.validate ch opts with
      | .error e => .error e
      | .ok (mergedValues, valueSources) =>
        match deps.composeFragments with
        | .error e => .error (gs "render compose templates: " ++ e)
        | .ok composeFragments =>
          if composeFragments = [] then
            .error (gs "chart produced no compose templates")
          else
            match deps.fileAssets with
            | .error e => .error (gs "render file templates: " ++ e)
            | .ok fileAssets =>
              match mergeFragments deps.runCompose deps.mkTempOk deps.tempDir
                  deps.fragWriteOk composeFragments fileAssets opts.releaseName with
              | .error e => .error e
              | .ok (_mergedCompose, orderedFragments) =>
                match deps.resolveLoc with
                | .error e => .error e
                | .ok _loc =>
                  match deps.writeRuntime with
                  | .error e => .error (gs "write runtime directory: " ++ e)
                  | .ok runtimeDir =>
                    saveStep deps runtimeDir
                      (renderMetadata opts ch mergedValues valueSources orderedFragments)

/-! ## Lemmas about fragment ordering and the render pipeline -/

theorem joinPath_le (dir : GoStr) {a b : GoStr} (h : goStrLe a b) :
    goStrLe (joinPath dir a) (joinPath dir b) := by
  have h2 := goStrLe_append_left (dir ++ ['/']) h
  simpa [joinPath, List.append_assoc] using h2

theorem fragmentNames_sorted (fragments : List (GoStr × GoStr)) :
    List.Pairwise goStrLe (fragmentNames fragments) :=
  sortStrings_sorted (fragments.map Prod.fst)

theorem fragmentNames_perm (fragments : List (GoStr × GoStr)) :
    (fragmentNames fragments).Perm (fragments.map Prod.fst) :=
  sortStrings_perm (fragments.map Prod.fst)

theorem fragmentPathList_sorted (tempDir : GoStr) (fragments : List (GoStr × GoStr)) :
    List.Pairwise goStrLe (fragmentPathList tempDir fragments) := by
  unfold fragmentPathList
  exact List.Pairwise.map (joinPath tempDir) (fun a b hab => joinPath_le tempDir hab)
    (fragmentNames_sorted fragments)

theorem mergeFragments_ok_names (run : MergeOptions → List GoStr → Except GoStr GoStr)
    (mkTempOk : Bool) (tempDir : GoStr) (fsWriteOk : Bool)
    (fragments files : List (GoStr × GoStr)) (releaseName : GoStr)
    (data : GoStr) (names : List GoStr)
    (h : mergeFragments run mkTempOk tempDir fsWriteOk fragments files releaseName
      = .ok (data, names)) :
    names = fragmentNames fragments := by
  cases mkTempOk with
  | false => simp [mergeFragments] at h
  | true =>
    cases fsWriteOk with
    | false => simp [mergeFragments] at h
    | true =>
      simp only [mergeFragments, Bool.not_true, Bool.false_eq_true, if_false,
        ite_false] at h
      cases hr : Runner.MergeFragments run (mergeCallOptions tempDir fragments releaseName) with
      | error e => rw [hr] at h; simp at h
      | ok out =>
        rw [hr] at h
        simp only [Except.ok.injEq, Prod.mk.injEq] at h
        exact h.2.symm

theorem stampMeta_composeFiles (rp : GoStr) (now : GoTime) (m : Metadata) :
    (stampMeta rp now m).composeFiles = m.composeFiles := by
  unfold stampMeta Metadata.Digest
  split <;> rfl

theorem save_finalMeta_composeFiles (ctxErr : Option GoStr) (now : GoTime)
    (mkdirOk writeOk renameOk : Bool) (rp : GoStr) (m : Metadata) :
    (Store.save ctxErr now mkdirOk writeOk renameOk rp m).finalMeta.composeFiles
      = m.composeFiles := by
  rcases save_finalMeta_eq ctxErr now mkdirOk writeOk renameOk rp m with h | h
  · rw [h]
  · rw [h, stampMeta_composeFiles]

theorem saveStep_ok_meta (deps : RenderDeps) (runtimeDir dir : GoStr)
    (m meta : Metadata) (h : saveStep deps runtimeDir m = .ok (dir, meta)) :
    meta.composeFiles = m.composeFiles := by
  unfold saveStep at h
  split at h
  · simp at h
  · simp only [Except.ok.injEq, Prod.mk.injEq] at h
    rw [Eq.symm h.2, save_finalMeta_composeFiles]

theorem renderRelease_ok_composeFiles (deps : RenderDeps) (opts : RenderOptions)
    (dir : GoStr) (meta : Metadata)
    (h : renderRelease deps opts = .ok (dir, meta)) :
    ∃ frags, deps.composeFragments = .ok frags
      ∧ meta.composeFiles = fragmentNames frags := by
  unfold renderRelease at h
  split at h
  · simp at h
  split at h
  · simp at h
  split at h
  · simp at h
  rename_i ch hch
  split at h
  · simp at h
  rename_i mergedValues valueSources hbv
  split at h
  · simp at h
  rename_i frags hfr
  split at h
  · simp at h
  split at h
  · simp at h
  rename_i fileAssets hfa
  split at h
  · simp at h
  rename_i mergedCompose orderedFragments hmf
  split at h
  · simp at h
  rename_i loc hrl
  split at h
  · simp at h
  rename_i runtimeDir hwr
  refine ⟨frags, hfr, ?_⟩
  rw [saveStep_ok_meta deps runtimeDir dir _ meta h]
  simp only [renderMetadata]
  exact mergeFragments_ok_names deps.runCompose deps.mkTempOk deps.tempDir
    deps.fragWriteOk frags fileAssets opts.releaseName mergedCompose
    orderedFragments hmf

/-- C4: Each dotted `key=value` override becomes a nested single-key
mapping (split on `.`, literal string at the leaf); the overrides
combine into one layer exactly as if each nested singleton were
deep-merged in, in order (last-write-wins); a dotted segment colliding
with a non-mapping value is silently replaced by a new mapping; and
through `buildValues`, override `a.b=1` on a tree where `a` was a scalar
replaces `a` by the mapping binding `b` to the string `1`, with no
error. -/
theorem C4_set_overrides :
    (∀ k v : GoStr,
      buildSetOverrides [(k, v)] = nestedOverrideObj (splitOnChar '.' k) v)
    ∧ (∀ ovs : List (GoStr × GoStr),
      buildSetOverrides ovs
        = ovs.foldl
            (fun acc kv =>
              mergeObj acc (nestedOverrideObj (splitOnChar '.' kv.1) kv.2)) [])
    ∧ (∀ (dst : Obj) (k r : GoStr) (rest : List GoStr) (v : GoStr),
      (∀ m, objLookup dst k ≠ some (.vobj m)) →
      objLookup (assignSetValue dst (k :: r :: rest) v) k
        = some (nestedOverride (r :: rest) v))
    ∧ buildValues (fun _ => .error []) (fun _ _ => .ok ())
        { metadata :=
            { name := gs "app", version := gs "1.0.0", description := []
              maintainers := [] }
          baseDir := [], values := some [(gs "a", .vstr (gs "x"))]
          valuesSchema := none, composeTpls := [], fileTemplates := []
          helperTpls := [], staticFiles := [] }
        { releaseName := gs "prod", chartSource := gs "c", valueFiles := []
          setValues := [(gs "a.b", gs "1")], runtimeBaseDir := []
          runtimePath := [] }
        = .ok ([(gs "a", .vobj [(gs "b", .vstr (gs "1"))])],
            [gs "chart:values.yaml", gs "cli:set"]) := by
  refine ⟨buildSetOverrides_single, buildSetOverrides_eq_mergeLayers,
    assignSetValue_collision, ?_⟩
  simp [buildValues, buildValuesFold, deepCopyObj, deepCopyValue,
    buildSetOverrides, assignSetValue, splitOnChar, mergeObj, mergeSetKey,
    mergeVal, objLookup, objSet, gs, nestedOverride]

theorem C4_set_overrides_witness :
    objLookup
        (assignSetValue [(gs "a", .vstr (gs "x"))] [gs "a", gs "b"] (gs "1"))
        (gs "a")
      = some (nestedOverride [gs "b"] (gs "1")) :=
  C4_set_overrides.2.2.1 [(gs "a", .vstr (gs "x"))] (gs "a") (gs "b") [] (gs "1")
    (by intro m hm; simp [objLookup] at hm)

/-- C5: the fragment paths handed to the compose runtime are the sorted
fragment names joined under the scratch directory, and are themselves
sorted lexicographically; the returned name list is exactly the fragment
keys in ascending order (sorted permutation of the keys); and the saved
release metadata records that list as `ComposeFiles`. -/
theorem C5_fragment_order :
    (∀ (tempDir : GoStr) (fragments : List (GoStr × GoStr)) (releaseName : GoStr),
      (mergeCallOptions tempDir fragments releaseName).fragmentPaths
          = (sortStrings (fragments.map Prod.fst)).map (joinPath tempDir)
        ∧ List.Pairwise goStrLe
            (mergeCallOptions tempDir fragments releaseName).fragmentPaths)
    ∧ (∀ (run : MergeOptions → List GoStr → Except GoStr GoStr)
        (mkTempOk : Bool) (tempDir : GoStr) (fsWriteOk : Bool)
        (fragments files : List (GoStr × GoStr)) (releaseName data : GoStr)
        (names : List GoStr),
      mergeFragments run mkTempOk tempDir fsWriteOk fragments files releaseName
          = .ok (data, names) →
      names = sortStrings (fragments.map Prod.fst)
        ∧ List.Pairwise goStrLe names
        ∧ names.Perm (fragments.map Prod.fst))
    ∧ (∀ (deps : RenderDeps) (opts : RenderOptions) (dir : GoStr) (meta : Metadata),
      renderRelease deps opts = .ok (dir, meta) →
      ∃ frags, deps.composeFragments = .ok frags
        ∧ meta.composeFiles = sortStrings (frags.map Prod.fst)) := by
  refine ⟨fun tempDir fragments releaseName =>
      ⟨rfl, fragmentPathList_sorted tempDir fragments⟩,
    fun run mkTempOk tempDir fsWriteOk fragments files releaseName data names h =>
      ?_,
    fun deps opts dir meta h => renderRelease_ok_composeFiles deps opts dir meta h⟩
  have hn := mergeFragments_ok_names run mkTempOk tempDir fsWriteOk fragments
    files releaseName data names h
  subst hn
  exact ⟨rfl, fragmentNames_sorted fragments, fragmentNames_perm fragments⟩

/-- A chart fixture for witnesses (no base values, so the values
pipeline reduces by `rfl`). -/
def chartW : Chart :=
  { metadata :=
      { name := gs "app", version := gs "1.0.0", description := []
        maintainers := [] }
    baseDir := gs "/charts/app", values := none, valuesSchema := none
    composeTpls := [], fileTemplates := [], helperTpls := [], staticFiles := [] }

def optsW : RenderOptions :=
  { releaseName := gs "prod", chartSource := gs "charts/app", valueFiles := []
    setValues := [], runtimeBaseDir := [], runtimePath := [] }

def fragsW : List (GoStr × GoStr) :=
  [(gs "b.yaml", gs "B"), (gs "a.yaml", gs "A")]

def depsW : RenderDeps :=
  { chart := .ok chartW
    readValuesFile := fun _ => .ok []
    validate := fun _ _ => .ok ()
    composeFragments := .ok fragsW
    fileAssets := .ok []
    runCompose := fun _ _ => .ok (gs "name: prod")
    mkTempOk := true, tempDir := gs "/tmp/frag", fragWriteOk := true
    resolveLoc := .ok (gs "/releases", gs "/releases/prod")
    writeRuntime := .ok (gs "/releases/prod")
    now := tNow, mkdirOk := true, writeOk := true, renameOk := true }

theorem C5_fragment_order_witness :
    ([gs "a.yaml", gs "b.yaml"] = sortStrings (fragsW.map Prod.fst)
      ∧ List.Pairwise goStrLe [gs "a.yaml", gs "b.yaml"]
      ∧ ([gs "a.yaml", gs "b.yaml"] : List GoStr).Perm (fragsW.map Prod.fst))
    ∧ ∃ frags, depsW.composeFragments = .ok frags
        ∧ (stampMeta (gs "/releases/prod") tNow
            (renderMetadata optsW chartW [] [gs "chart:values.yaml"]
              [gs "a.yaml", gs "b.yaml"])).composeFiles
          = sortStrings (frags.map Prod.fst) :=
  ⟨C5_fragment_order.2.1 depsW.runCompose true (gs "/tmp/frag") true fragsW []
      (gs "prod") (gs "name: prod") [gs "a.yaml", gs "b.yaml"] rfl,
   C5_fragment_order.2.2 depsW optsW (gs "/releases/prod")
      (stampMeta (gs "/releases/prod") tNow
        (renderMetadata optsW chartW [] [gs "chart:values.yaml"]
          [gs "a.yaml", gs "b.yaml"])) rfl⟩

/-- C6: rendering a chart that yields zero compose fragments fails with
a descriptive error rather than producing an empty manifest, and the
fragment-merge operation itself errors on an empty fragment-path
list. -/
theorem C6_no_fragments_error :
    (∀ (run : MergeOptions → List GoStr → Except GoStr GoStr)
        (opts : MergeOptions),
      opts.fragmentPaths = [] →
      Runner.MergeFragments run opts
        = .error (gs "at least one compose fragment is required"))
    ∧ (∀ (deps : RenderDeps) (opts : RenderOptions) (ch : Chart)
        (vals : Obj × List GoStr),
      opts.releaseName ≠ [] →
      opts.chartSource ≠ [] →
      deps.chart = .ok ch →
      buildValues deps.readValuesFile deps.validate ch opts = .ok vals →
      deps.composeFragments = .ok [] →
      renderRelease deps opts
        = .error (gs "chart produced no compose templates")) := by
  constructor
  · intro run opts h
    simp [Runner.MergeFragments, h]
  · intro deps opts ch vals h1 h2 hch hbv hfr
    simp [renderRelease, h1, h2, hch, hbv, hfr]

def depsEmptyW : RenderDeps := { depsW with composeFragments := .ok [] }

theorem C6_no_fragments_error_witness :
    Runner.MergeFragments (fun _ _ => .ok [])
        { workingDir := gs "/tmp/frag", fragmentPaths := [], projectName := gs "p" }
        = .error (gs "at least one compose fragment is required")
    ∧ renderRelease depsEmptyW optsW
        = .error (gs "chart produced no compose templates") :=
  ⟨C6_no_fragments_error.1 (fun _ _ => .ok [])
      { workingDir := gs "/tmp/frag", fragmentPaths := [], projectName := gs "p" }
      rfl,
   C6_no_fragments_error.2 depsEmptyW optsW chartW ([], [gs "chart:values.yaml"])
      (by decide) (by decide) rfl rfl rfl⟩

/-! ## Diff engine (`showDiffOutput` and helpers in app.go) -/

/-- One emitted hunk line: removed (current side) or added (candidate
side). -/
inductive DiffLine where
  | removed (line : GoStr)
  | added (line : GoStr)
deriving Repr, DecidableEq

/-- `strings.Split(s, "\n")`. -/
def splitLines (s : GoStr) : List GoStr := splitOnChar '\n' s

/-- The line-by-line comparison loop of `showDiffOutput` (used both for
the compose text and for each modified file): indices up to the longer
length, defaulting a missing line to the empty string, emitting a
removed then an added line for a differing pair when the respective
line is non-empty. -/
def lineDiff (current new : GoStr) : List DiffLine :=
  let currentLines := splitLines current
  let newLines := splitLines new
  let maxLen := max currentLines.length newLines.length
  ((List.range maxLen).map (fun i =>
    let c := currentLines.getD i []
    let n := newLines.getD i []
    if c ≠ n then
      (if c ≠ [] then [DiffLine.removed c] else [])
        ++ (if n ≠ [] then [DiffLine.added n] else [])
    else [])).flatten

/-- `extractServiceNames` from app.go: the keys of the `services`
mapping of the parsed document (`parse` models `yaml.Unmarshal` into a
`map[string]any`; `none` is a parse error, which yields no services). -/
def extractServiceNames (parse : GoStr → Option Obj) (composeYAML : Option GoStr) :
    List GoStr :=
  match composeYAML with
  | none => []
  | some y =>
    match parse y with
    | none => []
    | some doc =>
      match objLookup doc (gs "services") with
      | some (.vobj svcs) => svcs.map Prod.fst
      | _ => []

/-- `extractServiceData` from app.go: the serialized sub-document of one
service (`marshal` models `yaml.Marshal` plus `TrimSpace`); empty string
on any failure. -/
def extractServiceData (parse : GoStr → Option Obj) (marshal : Val → GoStr)
    (composeYAML : Option GoStr) (serviceName : GoStr) : GoStr :=
  match composeYAML with
  | none => []
  | some y =>
    match parse y with
    | none => []
    | some doc =>
      match objLookup doc (gs "services") with
      | some (.vobj svcs) =>
        match objLookup svcs serviceName with
        | some svcData => marshal svcData
        | none => []
      | _ => []

/-- `extractAffectedServices` from app.go: added services, then removed
ones (suffixed), then modified ones (suffixed, by serialized-text
inequality). -/
def extractAffectedServices (parse : GoStr → Option Obj) (marshal : Val → GoStr)
    (oldYAML : Option GoStr) (newYAML : GoStr) : List GoStr :=
  let oldServices := extractServiceNames parse oldYAML
  let newServices := extractServiceNames parse (some newYAML)
  (newServices.filter (fun s => !oldServices.contains s))
    ++ (oldServices.filter (fun s => !newServices.contains s)).map
        (fun s => s ++ gs " (removed)")
    ++ (newServices.filter (fun s =>
        oldServices.contains s
          && (extractServiceData parse marshal oldYAML s
            != extractServiceData parse marshal (some newYAML) s))).map
        (fun s => s ++ gs " (modified)")

/-- Go map lookup for the string-keyed file maps. -/
def lookupStr : List (GoStr × GoStr) → GoStr → Option GoStr
  | [], _ => none
  | (k, v) :: tl, key => if k = key then some v else lookupStr tl key

/-- The report `showDiffOutput` prints, as a structure: the new-release
banner, the compose hunks and affected services, and the file change
lists with per-file hunks when `showFiles` is set. -/
structure DiffReport where
  newRelease : Bool
  composeChanged : Bool
  composeHunks : List DiffLine
  affectedServices : List GoStr
  filesAdded : List GoStr
  filesRemoved : List GoStr
  filesModified : List GoStr
  fileHunks : List (GoStr × List DiffLine)
deriving Repr

/-- `showDiffOutput` from app.go, with printing modelled as the returned
report.  `currentCompose = none` models a nil current manifest (no
existing release); `currentFiles = none` a nil current file map. -/
def showDiffOutput (parse : GoStr → Option Obj) (marshal : Val → GoStr)
    (currentCompose : Option GoStr) (newCompose : GoStr)
    (currentFiles : Option (List (GoStr × GoStr)))
    (newFiles : List (GoStr × GoStr)) (showFiles : Bool) : DiffReport :=
  match currentCompose with
  | none =>
    { newRelease := true
      composeChanged := true
      composeHunks := []
      affectedServices := extractAffectedServices parse marshal none newCompose
      filesAdded := newFiles.map Prod.fst
      filesRemoved := []
      filesModified := []
      fileHunks := [] }
  | some current =>
    let hasComposeChanges := current ≠ newCompose
    let hunks := if hasComposeChanges then lineDiff current newCompose else []
    let affected :=
      if hasComposeChanges then
        extractAffectedServices parse marshal (some current) newCompose
      else []
    match currentFiles with
    | none =>
      { newRelease := false
        composeChanged := hasComposeChanges
        composeHunks := hunks
        affectedServices := affected
        filesAdded := newFiles.map Prod.fst
        filesRemoved := []
        filesModified := []
        fileHunks := [] }
    | some cf =>
      let added := (newFiles.filter (fun p => (lookupStr cf p.1).isNone)).map Prod.fst
      let modified := (newFiles.filter (fun p =>
        match lookupStr cf p.1 with
        | some old => old != p.2
        | none => false)).map Prod.fst
      let removed := (cf.filter (fun p => (lookupStr newFiles p.1).isNone)).map Prod.fst
      { newRelease := false
        composeChanged := hasComposeChanges
        composeHunks := hunks
        affectedServices := affected
        filesAdded := added
        filesRemoved := removed
        filesModified := modified
        fileHunks :=
          if showFiles then
            modified.map (fun f =>
              (f, lineDiff ((lookupStr cf f).getD []) ((lookupStr newFiles f).getD [])))
          else [] }

/-- C8: with no current manifest, the whole candidate is new: the
affected-service list is exactly the candidate service names (no
removed/modified markers), every candidate file is added, and nothing is
removed or modified. -/
theorem C8_absent_current_all_new :
    ∀ (parse : GoStr → Option Obj) (marshal : Val → GoStr) (newCompose : GoStr)
      (currentFiles : Option (List (GoStr × GoStr)))
      (newFiles : List (GoStr × GoStr)) (showFiles : Bool),
      (showDiffOutput parse marshal none newCompose currentFiles newFiles
          showFiles).affectedServices
          = extractServiceNames parse (some newCompose)
        ∧ (showDiffOutput parse marshal none newCompose currentFiles newFiles
            showFiles).filesAdded = newFiles.map Prod.fst
        ∧ (showDiffOutput parse marshal none newCompose currentFiles newFiles
            showFiles).filesRemoved = []
        ∧ (showDiffOutput parse marshal none newCompose currentFiles newFiles
            showFiles).filesModified = []
        ∧ extractAffectedServices parse marshal none newCompose
          = extractServiceNames parse (some newCompose) := by
  intro parse marshal newCompose currentFiles newFiles showFiles
  have hext : extractAffectedServices parse marshal none newCompose
      = extractServiceNames parse (some newCompose) := by
    unfold extractAffectedServices
    have hnone : extractServiceNames parse none = [] := rfl
    rw [hnone]
    simp [List.filter_eq_self, List.contains]
  exact ⟨by simp [showDiffOutput, hext], by simp [showDiffOutput],
    by simp [showDiffOutput], by simp [showDiffOutput], hext⟩

/-! ## Claim C9: the positional hunk procedure -/

/-- Pad a line list to length `m` with empty strings. -/
def padLines (m : Nat) (l : List GoStr) : List GoStr :=
  l ++ List.replicate (m - l.length) []

/-- The hunk procedure as the claim words it, reading "present on a
side" as "the index is within that side's line count": corresponding
indices up to the longer length (a missing line compares as empty), and
every differing pair emits a removed line if the current side has a line
at that index, then an added line if the candidate side does.  Written
from the claim, for comparison with `lineDiff`. -/
def specHunksClaim (current new : GoStr) : List DiffLine :=
  let cl := (splitLines current).map some
  let nl := (splitLines new).map some
  let m := max cl.length nl.length
  (((cl ++ List.replicate (m - cl.length) none).zip
      (nl ++ List.replicate (m - nl.length) none)).map
    (fun (p : Option GoStr × Option GoStr) =>
    if p.1.getD [] = p.2.getD [] then []
    else
      (match p.1 with
        | some c => [DiffLine.removed c]
        | none => ([] : List DiffLine))
        ++ (match p.2 with
        | some n => [DiffLine.added n]
        | none => ([] : List DiffLine)))).flatten

/-- The amended hunk procedure: for every differing pair of
corresponding lines (both sides padded with empty strings to the longer
length), a removed line is emitted only when the current line is
non-empty and an added line only when the candidate line is non-empty.
Written from the amended claim, for comparison with `lineDiff`. -/
def specHunksAmended (current new : GoStr) : List DiffLine :=
  let m := max (splitLines current).length (splitLines new).length
  (((padLines m (splitLines current)).zip (padLines m (splitLines new))).map
    (fun p =>
      if p.1 = p.2 then []
      else
        (if p.1 ≠ [] then [DiffLine.removed p.1] else [])
          ++ (if p.2 ≠ [] then [DiffLine.added p.2] else []))).flatten

theorem padLines_succ (m : Nat) (l : List GoStr) :
    padLines (m + 1) l = l.getD 0 [] :: padLines m l.tail := by
  cases l with
  | nil => simp [padLines, List.replicate_succ]
  | cons a t => simp [padLines, List.getD, Nat.succ_sub_succ]

theorem getD_succ_tail (l : List GoStr) (i : Nat) :
    l.getD (i + 1) [] = l.tail.getD i [] := by
  cases l <;> simp [List.getD]

theorem zipPad_eq_range (g : GoStr → GoStr → List DiffLine) :
    ∀ (m : Nat) (cl nl : List GoStr), cl.length ≤ m → nl.length ≤ m →
    ((padLines m cl).zip (padLines m nl)).map (fun p => g p.1 p.2)
      = (List.range m).map (fun i => g (cl.getD i []) (nl.getD i []))
  | 0, cl, nl, hc, hn => by
    have hc0 : cl = [] := List.eq_nil_of_length_eq_zero (Nat.le_zero.mp hc)
    have hn0 : nl = [] := List.eq_nil_of_length_eq_zero (Nat.le_zero.mp hn)
    subst hc0
    subst hn0
    simp [padLines]
  | m + 1, cl, nl, hc, hn => by
    rw [padLines_succ, padLines_succ]
    have ihc : cl.tail.length ≤ m := by
      cases cl with
      | nil => simp
      | cons a t => simpa using Nat.le_of_succ_le_succ hc
    have ihn : nl.tail.length ≤ m := by
      cases nl with
      | nil => simp
      | cons a t => simpa using Nat.le_of_succ_le_succ hn
    have ih := zipPad_eq_range g m cl.tail nl.tail ihc ihn
    rw [List.range_succ_eq_map]
    simp only [List.zip_cons_cons, List.map_cons, List.map_map]
    rw [ih]
    congr 1
    apply List.map_congr_left
    intro i _
    simp [Function.comp, getD_succ_tail]

theorem lineDiff_eq_specHunksAmended (current new : GoStr) :
    lineDiff current new = specHunksAmended current new := by
  have h := zipPad_eq_range
    (fun a b =>
      if a = b then []
      else
        (if a ≠ [] then [DiffLine.removed a] else [])
          ++ (if b ≠ [] then [DiffLine.added b] else []))
    (max (splitLines current).length (splitLines new).length)
    (splitLines current) (splitLines new)
    (le_max_left _ _) (le_max_right _ _)
  simp only [lineDiff, specHunksAmended]
  rw [h]
  congr 1
  apply List.map_congr_left
  intro i _
  by_cases hc : (splitLines current).getD i [] = (splitLines new).getD i []
  · simp [hc]
  · simp [hc]

/-- C9 (amended): the change hunks are a line-oriented positional
comparison — corresponding indices compared pairwise up to the longer
length, differing pairs emitting a removed line when the current line is
non-empty followed by an added line when the candidate line is
non-empty, equal pairs emitting nothing — and `showDiffOutput` renders
exactly these hunks when the compose texts differ. -/
theorem C9_positional_hunks :
    (∀ current new : GoStr, lineDiff current new = specHunksAmended current new)
    ∧ (∀ (parse : GoStr → Option Obj) (marshal : Val → GoStr)
        (current newCompose : GoStr)
        (currentFiles : Option (List (GoStr × GoStr)))
        (newFiles : List (GoStr × GoStr)) (showFiles : Bool),
      current ≠ newCompose →
      (showDiffOutput parse marshal (some current) newCompose currentFiles
          newFiles showFiles).composeHunks
        = lineDiff current newCompose) := by
  constructor
  · exact lineDiff_eq_specHunksAmended
  · intro parse marshal current newCompose currentFiles newFiles showFiles h
    cases currentFiles <;> simp [showDiffOutput, h]

/-- C9 counterexample: at current text `""` and candidate text `"x"`,
the pair at index 0 differs and the current side has a (present but
empty) line, yet the code emits no removed line — the procedure the
claim describes emits one. -/
theorem C9_positional_hunks_counterexample :
    lineDiff [] (gs "x") ≠ specHunksClaim [] (gs "x") := by decide

theorem C9_positional_hunks_witness :
    (showDiffOutput (fun _ => none) (fun _ => []) (some (gs "a")) (gs "b")
        none [] false).composeHunks
      = lineDiff (gs "a") (gs "b") :=
  C9_positional_hunks.2 (fun _ => none) (fun _ => []) (gs "a") (gs "b")
    none [] false (by decide)

/-! ## Install workflow (`Application.InstallRelease` in app.go) -/

/-- The externally visible steps of `InstallRelease` after the
existing-release check: rendering the release (which writes the runtime
directory and metadata) and running `docker compose up -d`. -/
inductive InstallEffect where
  | rendered
  | composeUp
deriving Repr, DecidableEq

/-- `app.InstallOptions`. -/
structure InstallOptions where
  render : RenderOptions
  autoStart : Bool

/-- `Application.InstallRelease` from app.go: resolve the runtime
location, load any existing release metadata, refuse to continue when
one exists, otherwise render and optionally start.  `resolve` models
`resolveRuntimeLocation`, `loadRelease` the `ReleaseStore.Load` call at
the resolved runtime directory, `dockerUp` the compose invocation.  The
second component records which mutating steps ran. -/
def installRelease (resolve : Except GoStr (GoStr × GoStr))
    (loadRelease : Except GoStr (Option Metadata))
    (rdeps : RenderDeps) (dockerUp : Except GoStr Unit)
    (opts : InstallOptions) : Except GoStr Unit × List InstallEffect :=
  match resolve with
  | .error e => (.error e, [])
  | .ok _ =>
    match loadRelease with
    | .error e => (.error (gs "check existing release: " ++ e), [])
    | .ok (some _) =>
      (.error (gs "release " ++ opts.render.releaseName
        ++ gs " already exists (use composepack apply to update an existing release)"),
       [])
    | .ok none =>
      match renderRelease rdeps opts.render with
      | .error e => (.error e, [.rendered])
      | .ok _ =>
        if !opts.autoStart then (.ok (), [.rendered])
        else
          match dockerUp with
          | .error e => (.error e, [.rendered, .composeUp])
          | .ok _ => (.ok (), [.rendered, .composeUp])

/-- C10: when the runtime directory already holds loadable release
metadata, `InstallRelease` returns the already-exists error (pointing at
apply) and performs no mutating step — in particular it does not render,
so the existing runtime directory and metadata are untouched. -/
theorem C10_install_refuses_existing :
    ∀ (resolve : Except GoStr (GoStr × GoStr))
      (loadRelease : Except GoStr (Option Metadata))
      (rdeps : RenderDeps) (dockerUp : Except GoStr Unit)
      (opts : InstallOptions) (loc : GoStr × GoStr) (m : Metadata),
      resolve = .ok loc →
      loadRelease = .ok (some m) →
      (installRelease resolve loadRelease rdeps dockerUp opts).1
          = .error (gs "release " ++ opts.render.releaseName
            ++ gs " already exists (use composepack apply to update an existing release)")
        ∧ (installRelease resolve loadRelease rdeps dockerUp opts).2 = [] := by
  intro resolve loadRelease rdeps dockerUp opts loc m h1 h2
  subst h1
  subst h2
  exact ⟨rfl, rfl⟩

theorem C10_install_refuses_existing_witness :
    (installRelease (.ok (gs "/releases", gs "/releases/prod"))
        (.ok (some mWitnessA)) depsW (.ok ())
        { render := optsW, autoStart := true }).1
        = .error (gs "release " ++ optsW.releaseName
          ++ gs " already exists (use composepack apply to update an existing release)")
      ∧ (installRelease (.ok (gs "/releases", gs "/releases/prod"))
          (.ok (some mWitnessA)) depsW (.ok ())
          { render := optsW, autoStart := true }).2 = [] :=
  C10_install_refuses_existing (.ok (gs "/releases", gs "/releases/prod"))
    (.ok (some mWitnessA)) depsW (.ok ()) { render := optsW, autoStart := true }
    (gs "/releases", gs "/releases/prod") mWitnessA rfl rfl

/-! ## Chart loader (`internal/core/chart/composite_loader.go`, `fetch.go`) -/

/-- `strings.ToLower` (character-wise lowering). -/
def goToLower (s : GoStr) : GoStr := s.map Char.toLower

/-- `strings.HasSuffix`. -/
def hasSuffixB (s pat : GoStr) : Bool := pat.isSuffixOf s

/-- `strings.HasPrefix`. -/
def hasPrefixB (s pat : GoStr) : Bool := pat.isPrefixOf s

/-- `isURL` from fetch.go: case-insensitive `http://` / `https://`
scheme check. -/
def isURL (source : GoStr) : Bool :=
  hasPrefixB (goToLower source) (gs "https://")
    || hasPrefixB (goToLower source) (gs "http://")

/-- `looksLikeArchive` from composite_loader.go. -/
def looksLikeArchive (path : GoStr) : Bool :=
  hasSuffixB (goToLower path) (gs ".tar")
    || hasSuffixB (goToLower path) (gs ".tar.gz")
    || hasSuffixB (goToLower path) (gs ".tgz")
    || hasSuffixB (goToLower path) (gs ".cpack")
    || hasSuffixB (goToLower path) (gs ".cpack.tgz")

/-- The observable outcome of the HTTP GET `downloadIfURL` performs:
either a transport error, or a status with its text. -/
structure HttpOutcome where
  transportError : Option GoStr
  status : Nat
  statusText : GoStr

/-- The name `os.CreateTemp("", "composepack-chart-*.cpack.tgz")`
produces: the pattern with `*` replaced by a random string, under the
temp directory. -/
def tmpDownloadName (tmpBase rand : GoStr) : GoStr :=
  tmpBase ++ gs "/composepack-chart-" ++ rand ++ gs ".cpack.tgz"

/-- `CompositeLoader.downloadIfURL` from fetch.go: pass non-URLs
through; otherwise fail on transport error or on any status other than
200 OK, then stream the body to the generated temp file.  `createOk`,
`copyOk`, `closeOk` model the temp-file filesystem steps. -/
def downloadIfURL (http : HttpOutcome) (tmpBase rand : GoStr)
    (createOk copyOk closeOk : Bool) (source : GoStr) : Except GoStr GoStr :=
  if !(isURL source) then .ok source
  else
    match http.transportError with
    | some e => .error (gs "download chart: " ++ e)
    | none =>
      if http.status ≠ 200 then
        .error (gs "download chart: unexpected status " ++ http.statusText)
      else if !createOk then .error (gs "create temp file")
      else if !copyOk then .error (gs "save downloaded chart")
      else if !closeOk then .error (gs "close temp file")
      else .ok (tmpDownloadName tmpBase rand)

/-- The outcome of `os.Stat` as `CompositeLoader.Load` distinguishes
it. -/
inductive StatResult where
  | statDir
  | statFile
  | statNotExist
  | statErr (e : GoStr)

/-- `CompositeLoader.Load` from composite_loader.go: reject an empty
source, download first when the source is a URL, then dispatch on what
the (possibly downloaded) path is: a directory loads directly, an
archive-looking file extracts and loads, anything else is an error. -/
def CompositeLoader.Load (fsLoad archLoad : GoStr → Except GoStr Chart)
    (stat : GoStr → StatResult) (http : HttpOutcome) (tmpBase rand : GoStr)
    (createOk copyOk closeOk : Bool) (source : GoStr) : Except GoStr Chart :=
  if source = [] then .error (gs "chart source must be provided")
  else
    match
      (if isURL source then
        downloadIfURL http tmpBase rand createOk copyOk closeOk source
      else .ok source) with
    | .error e => .error e
    | .ok resolved =>
      match stat resolved with
      | .statDir => fsLoad resolved
      | .statFile =>
        if looksLikeArchive resolved then archLoad resolved
        else .error (gs "chart source is not a directory: " ++ resolved)
      | .statErr e => .error e
      | .statNotExist =>
        if looksLikeArchive resolved then archLoad resolved
        else .error (gs "chart source not found: " ++ resolved)

theorem isURL_ne_nil {source : GoStr} (h : isURL source = true) : source ≠ [] := by
  intro hs
  subst hs
  exact absurd h (by decide)

theorem goToLower_append (a b : GoStr) :
    goToLower (a ++ b) = goToLower a ++ goToLower b :=
  List.map_append Char.toLower a b

theorem looksLikeArchive_tmpDownloadName (tmpBase rand : GoStr) :
    looksLikeArchive (tmpDownloadName tmpBase rand) = true := by
  unfold looksLikeArchive tmpDownloadName
  have hlow : goToLower (tmpBase ++ gs "/composepack-chart-" ++ rand ++ gs ".cpack.tgz")
      = goToLower (tmpBase ++ gs "/composepack-chart-" ++ rand) ++ gs ".cpack.tgz" := by
    rw [goToLower_append]
    congr 1
  have hsuf : hasSuffixB
      (goToLower (tmpBase ++ gs "/composepack-chart-" ++ rand) ++ gs ".cpack.tgz")
      (gs ".cpack.tgz") = true := by
    unfold hasSuffixB
    exact List.isSuffixOf_iff_suffix.mpr (List.suffix_append _ _)
  rw [hlow, hsuf]
  simp

/-- C7: for a URL chart source (case-insensitive http/https scheme),
`Load` downloads first — failing with the download error on a transport
error or on any non-2xx status — and on success hands the downloaded
temp file (whose generated name always looks like an archive) to the
archive loader. -/
theorem C7_url_chart_download :
    (∀ (fsLoad archLoad : GoStr → Except GoStr Chart) (stat : GoStr → StatResult)
      (http : HttpOutcome) (tmpBase rand : GoStr) (createOk copyOk closeOk : Bool)
      (source e : GoStr),
      isURL source = true → http.transportError = some e →
      CompositeLoader.Load fsLoad archLoad stat http tmpBase rand createOk
          copyOk closeOk source
        = .error (gs "download chart: " ++ e))
    ∧ (∀ (fsLoad archLoad : GoStr → Except GoStr Chart) (stat : GoStr → StatResult)
      (http : HttpOutcome) (tmpBase rand : GoStr) (createOk copyOk closeOk : Bool)
      (source : GoStr),
      isURL source = true → http.transportError = none →
      ¬(200 ≤ http.status ∧ http.status < 300) →
      CompositeLoader.Load fsLoad archLoad stat http tmpBase rand createOk
          copyOk closeOk source
        = .error (gs "download chart: unexpected status " ++ http.statusText))
    ∧ (∀ (fsLoad archLoad : GoStr → Except GoStr Chart) (stat : GoStr → StatResult)
      (http : HttpOutcome) (tmpBase rand : GoStr) (source : GoStr),
      isURL source = true → http.transportError = none → http.status = 200 →
      stat (tmpDownloadName tmpBase rand) = .statFile →
      CompositeLoader.Load fsLoad archLoad stat http tmpBase rand true true
          true source
        = archLoad (tmpDownloadName tmpBase rand))
    ∧ (∀ tmpBase rand : GoStr,
      looksLikeArchive (tmpDownloadName tmpBase rand) = true) := by
  refine ⟨?_, ?_, ?_, looksLikeArchive_tmpDownloadName⟩
  · intro fsLoad archLoad stat http tmpBase rand createOk copyOk closeOk source e
      hurl hte
    simp [CompositeLoader.Load, downloadIfURL, hurl, hte, isURL_ne_nil hurl]
  · intro fsLoad archLoad stat http tmpBase rand createOk copyOk closeOk source
      hurl hte h2xx
    have h200 : http.status ≠ 200 := by
      intro h
      exact h2xx ⟨by omega, by omega⟩
    simp [CompositeLoader.Load, downloadIfURL, hurl, hte, h200, isURL_ne_nil hurl]
  · intro fsLoad archLoad stat http tmpBase rand source hurl hte h200 hstat
    simp [CompositeLoader.Load, downloadIfURL, hurl, hte, h200, isURL_ne_nil hurl,
      hstat, looksLikeArchive_tmpDownloadName]

theorem C7_url_chart_download_witness :
    CompositeLoader.Load (fun _ => .error (gs "fs")) (fun p => .error p)
        (fun _ => .statFile)
        { transportError := none, status := 200, statusText := gs "200 OK" }
        (gs "/tmp") (gs "r1") true true true (gs "HTTP://example.com/app.cpack.tgz")
      = (fun (p : GoStr) => (.error p : Except GoStr Chart))
          (tmpDownloadName (gs "/tmp") (gs "r1")) :=
  C7_url_chart_download.2.2.1 (fun _ => .error (gs "fs")) (fun p => .error p)
    (fun _ => .statFile)
    { transportError := none, status := 200, statusText := gs "200 OK" }
    (gs "/tmp") (gs "r1") (gs "HTTP://example.com/app.cpack.tgz")
    (by decide) rfl rfl rfl
